import Mathlib

/-!
Verification of the Pixel bot core (admission control, ledger, leveling,
effect queue) against its documented behaviour.  Every definition below is a
shallow embedding of the corresponding Python code shown in the repository's
documentation; where only a signature of a routine appears in the corpus the
definition is modelled from the design spec and says so in its doc comment.
-/

namespace Pixel

/-! ## Ledger data model

Embeds the `users`, `points` and `transactions` tables of `app/core/points.py`
(`PointsService`).  Balances are kept as a partial map from user id to the
integer balance, transactions as an append-only list. -/

/-- One row of the `transactions` table: `{user_id, type, delta, reason}`. -/
structure Txn where
  user_id : Nat
  type : String
  delta : Int
  reason : String
  deriving Repr, DecidableEq

/-- One row of the `users` table (the fields the core logic reads). -/
structure UserRec where
  id : Nat
  name : String
  deriving Repr, DecidableEq

/-- Ledger state: users, the `points` table (user id to balance), the
transaction log, and the autoincrement counter for fresh user ids. -/
structure St where
  users : List UserRec
  bal : Nat → Option Int
  txns : List Txn
  nextId : Nat

/-- The empty database. -/
def initSt : St := ⟨[], fun _ => none, [], 0⟩

/-- Point-update of the balance map (`pts.balance = b`). -/
def setBal (f : Nat → Option Int) (uid : Nat) (b : Int) : Nat → Option Int :=
  fun u => if u = uid then some b else f u

/-- Embeds `PointsService.ensure_user` (docs/customization.md): look the user
up by name; if absent create it with balance 0, then, when
`POINTS_START_AMOUNT > 0`, set the balance to the start amount and append a
`grant` transaction with reason `"start"`.  Returns the (possibly new) user
id. -/
def ensure_user (start : Int) (s : St) (name : String) : St × Nat :=
  match s.users.find? (fun u => u.name == name) with
  | some u => (s, u.id)
  | none =>
    let uid := s.nextId
    let s1 : St := { users := s.users ++ [⟨uid, name⟩], bal := setBal s.bal uid 0,
                     txns := s.txns, nextId := uid + 1 }
    if 0 < start then
      ({ s1 with bal := setBal s1.bal uid start,
                 txns := s1.txns ++ [⟨uid, "grant", start, "start"⟩] }, uid)
    else (s1, uid)

/-- Embeds `PointsService.spend` (docs/customization.md): raise
`ValueError("Insufficient points")` when the points row is missing or the
balance is below `amount`; otherwise decrement the balance, append a `spend`
transaction with delta `-amount`, and return the new balance. -/
def spend (s : St) (uid : Nat) (amount : Int) (reason : String) :
    Except String (St × Int) :=
  match s.bal uid with
  | none => .error "Insufficient points"
  | some b =>
    if b < amount then .error "Insufficient points"
    else
      .ok ({ s with bal := setBal s.bal uid (b - amount),
                    txns := s.txns ++ [⟨uid, "spend", -amount, reason⟩] },
           b - amount)

/-- Modelled from the spec: the body of `PointsService.grant` is absent from
the corpus (only its signature appears).  Per the spec's Ledger contract,
`grant(subject, amount, reason)` always succeeds for a known subject, adds
`amount` to the balance and appends a `+amount` transaction; an unknown
subject is a `SubjectNotFound` error. -/
def grant (s : St) (uid : Nat) (amount : Int) (reason : String) :
    Except String (St × Int) :=
  match s.bal uid with
  | none => .error "not found"
  | some b =>
    .ok ({ s with bal := setBal s.bal uid (b + amount),
                  txns := s.txns ++ [⟨uid, "grant", amount, reason⟩] },
         b + amount)

/-- Modelled from the spec: the body of `PointsService.adjust` is absent from
the corpus (only its signature appears).  Per the spec's Ledger contract,
`adjust(subject, delta, reason, allow_negative)` fails with
`InsufficientBalance` and performs no mutation when `allow_negative = false`
and the result would be negative; otherwise it commits the delta and appends
the transaction.  An unknown subject is a `SubjectNotFound` error. -/
def adjust (s : St) (uid : Nat) (delta : Int) (reason : String)
    (allow_negative_balance : Bool) : Except String (St × Int) :=
  match s.bal uid with
  | none => .error "not found"
  | some b =>
    if !allow_negative_balance && b + delta < 0 then .error "Insufficient points"
    else
      .ok ({ s with bal := setBal s.bal uid (b + delta),
                    txns := s.txns ++ [⟨uid, "adjust", delta, reason⟩] },
           b + delta)

/-- Sum of the deltas of a subject's transactions. -/
def txnSum (uid : Nat) (ts : List Txn) : Int :=
  ((ts.filter fun t => t.user_id == uid).map Txn.delta).sum

/-- One ledger operation, as issued by callers of `PointsService`. -/
inductive Op where
  | ensure (name : String)
  | grant (uid : Nat) (amount : Int) (reason : String)
  | spend (uid : Nat) (amount : Int) (reason : String)
  | adjust (uid : Nat) (delta : Int) (reason : String) (allowNeg : Bool)
  deriving Repr, DecidableEq

/-- Apply one operation; a raised error leaves the database unchanged
(the service raises before any mutation). -/
def step (start : Int) (s : St) : Op → St
  | .ensure name => (ensure_user start s name).1
  | .grant uid a r => match grant s uid a r with | .ok (s2, _) => s2 | .error _ => s
  | .spend uid a r => match spend s uid a r with | .ok (s2, _) => s2 | .error _ => s
  | .adjust uid d r an =>
      match adjust s uid d r an with | .ok (s2, _) => s2 | .error _ => s

/-- Run a sequence of ledger operations from a state. -/
def runOps (start : Int) (ops : List Op) (s : St) : St :=
  ops.foldl (step start) s

/-- Well-formedness of an issued operation: the Ledger contract requires
`amount > 0` for `grant`. -/
def opWF : Op → Prop
  | .grant _ a _ => 0 < a
  | _ => True

instance : DecidablePred opWF := fun op => by
  cases op <;> simp [opWF] <;> infer_instance

/-- Whether an operation is an administrative override for `uid`:
an `adjust` with `allow_negative_balance = true` on that subject. -/
def isOverride (uid : Nat) : Op → Bool
  | .adjust u _ _ an => an && u == uid
  | _ => false

/-- Whether the operation list contains an override adjustment for `uid`. -/
def hasOverride (uid : Nat) (ops : List Op) : Bool :=
  ops.any (isOverride uid)

/-! ## Cooldown gate

Embeds `CooldownService` (docs/event-flow.md).  Time is modelled in whole
seconds; the expiry map is a partial map keyed by `(user_id, key)`. -/

/-- Cooldown state: the in-memory `_cooldowns` dictionary. -/
structure CooldownSt where
  cooldowns : Nat × String → Option Int

/-- Embeds `CooldownService.set`: store `now + duration_seconds` as the
expiry for `(user_id, key)`, overwriting any previous entry. -/
def cdSet (s : CooldownSt) (now : Int) (uid : Nat) (key : String)
    (duration_seconds : Int) : CooldownSt :=
  ⟨fun e => if e = (uid, key) then some (now + duration_seconds)
            else s.cooldowns e⟩

/-- Embeds `CooldownService.is_active`: absent entry reports `(False, 0)`;
an expired entry (`now >= expires_at`) is lazily deleted and reports
`(False, 0)`; otherwise reports `(True, int(expires_at - now))` without
mutating the map. -/
def is_active (s : CooldownSt) (now : Int) (uid : Nat) (key : String) :
    (Bool × Int) × CooldownSt :=
  match s.cooldowns (uid, key) with
  | none => ((false, 0), s)
  | some expires_at =>
    if expires_at ≤ now then
      ((false, 0), ⟨fun e => if e = (uid, key) then none else s.cooldowns e⟩)
    else ((true, expires_at - now), s)

/-! ## Leveling curve

Embeds `app/core/xp_curve.py`.  The Python code computes
`int(base * (L ** exponent))` with the default configuration `base = 100`,
`exponent = 1.8`.  Since `1.8 = 9/5`, the exact value of
`⌊100 * L^(9/5)⌋` is the integer fifth root of `100^5 * L^9`; the
double-precision computation agrees with the exact value at every level the
documentation and claims exercise (the fractional parts are far from integer
boundaries).  The fifth root is computed by a fuel-bounded binary search,
exact for every argument below `2^64`. -/

/-- Binary search for the integer fifth root: maintains `lo^5 ≤ n < hi^5`. -/
def iroot5Go (n : Nat) : Nat → Nat → Nat → Nat
  | 0, lo, _ => lo
  | fuel + 1, lo, hi =>
    if hi ≤ lo + 1 then lo
    else
      let mid := (lo + hi) / 2
      if mid ^ 5 ≤ n then iroot5Go n fuel mid hi else iroot5Go n fuel lo mid

/-- Integer fifth root (`⌊n^(1/5)⌋` for `n < 2^64`). -/
def iroot5 (n : Nat) : Nat := iroot5Go n 64 0 (n + 1)

/-- Embeds `int(base * (L ** 1.8))`: the exact value `⌊base * L^(9/5)⌋`,
computed as `⌊(base^5 * L^9)^(1/5)⌋`. -/
def intPow18 (base L : Nat) : Nat := iroot5 (base ^ 5 * L ^ 9)

/-- Generic cumulative requirement: `sum(int(base * L ** 1.8) for L in
range(2, level + 1))` with the per-level requirement abstracted as `req`. -/
def sumReq (req : Nat → Nat) (level : Nat) : Nat :=
  if level ≤ 1 then 0 else ((List.range' 2 (level - 1)).map req).sum

/-- Embeds `xp_for_level` (src/unnamed/part_005): 0 for `level ≤ 1`,
otherwise the sum of `int(100 * L ** 1.8)` over `L in range(2, level+1)`. -/
def xp_for_level (level : Nat) : Nat := sumReq (intPow18 100) level

/-- Loop of `level_from_xp`, with the per-level requirement abstracted as
`req` and the remaining iteration count `fuel = max_level - level`:
while `level < max_level`, compute the next level's requirement and stop
as soon as `cumulative + next > total_xp`. -/
def levelFromXpGo (req : Nat → Nat) (total_xp : Nat) :
    Nat → Nat → Nat → Nat
  | 0, level, _ => level
  | fuel + 1, level, cumulative =>
    let next := req (level + 1)
    if total_xp < cumulative + next then level
    else levelFromXpGo req total_xp fuel (level + 1) (cumulative + next)

/-- Embeds `level_from_xp` (src/unnamed/part_005): start at level 1 with
cumulative 0 and walk the curve until the next level no longer fits in
`total_xp` or `max_level` is reached (default `XP_MAX_LEVEL = 9999`). -/
def level_from_xp (total_xp : Nat) (max_level : Nat) : Nat :=
  levelFromXpGo (intPow18 100) total_xp (max_level - 1) 1 0

/-! ## Level rewards

Embeds `apply_level_rewards` (`app/core/level_rewards.py`, shown in
src/unnamed/part_005) and the multiple-level-up loop that calls it.  The
JSON rule table is abstracted as a partial map from level to rule (a missing
file is the everywhere-`none` map). -/

/-- One entry of `level_rewards.json`. -/
structure Reward where
  points : Option Int
  message : Option String
  tts : Bool

/-- An action returned to the caller by `apply_level_rewards`. -/
inductive RAction where
  | points (amount : Int)
  | tts (text : String)
  | message (text : String)
  deriving Repr, DecidableEq

/-- Placeholder substitution used when preparing a reward message:
`reward["message"].replace("{user}", user_name).replace("{level}", str(new_level))`. -/
def substMsg (msg : String) (user_name : String) (lvl : Nat) : String :=
  (msg.replace "{user}" user_name).replace "{level}" (toString lvl)

/-- Embeds `apply_level_rewards`: look the level up in the rule table;
if a rule exists, grant the bonus points (when present) via the Ledger and
collect the message / TTS actions. -/
def apply_level_rewards (rewards : Nat → Option Reward) (s : St) (uid : Nat)
    (user_name : String) (new_level : Nat) : St × List RAction :=
  match rewards new_level with
  | none => (s, [])
  | some r =>
    let sp : St × List RAction :=
      match r.points with
      | some amt =>
        (match grant s uid amt ("level_" ++ toString new_level) with
         | .ok (s2, _) => s2
         | .error _ => s, [RAction.points amt])
      | none => (s, [])
    let acts2 : List RAction :=
      match r.message with
      | some m =>
        let msg := substMsg m user_name new_level
        if r.tts then [RAction.tts msg] else [RAction.message msg]
      | none => []
    (sp.1, sp.2 ++ acts2)

/-- One iteration of the multiple-level-up loop: invoke
`apply_level_rewards` for `lvl` and record the pair `(lvl, actions)` in the
processing log. -/
def levelStep (rewards : Nat → Option Reward) (uid : Nat) (user_name : String)
    (acc : St × List (Nat × List RAction)) (lvl : Nat) :
    St × List (Nat × List RAction) :=
  ((apply_level_rewards rewards acc.1 uid user_name lvl).1,
   acc.2 ++ [(lvl, (apply_level_rewards rewards acc.1 uid user_name lvl).2)])

/-- Embeds the multiple-level-up loop of src/unnamed/part_005:
`if new_level > before_level: for lvl in range(before_level + 1,
new_level + 1): apply_level_rewards(...)`. -/
def process_level_ups (rewards : Nat → Option Reward) (s : St) (uid : Nat)
    (user_name : String) (before_level new_level : Nat) :
    St × List (Nat × List RAction) :=
  if before_level < new_level then
    (List.range' (before_level + 1) (new_level - before_level)).foldl
      (levelStep rewards uid user_name) (s, [])
  else (s, [])

/-! ## Effect queue and two-stage TTS delivery

Embeds the queue-item model and `TTSService.next_plain`
(src/unnamed/part_005): the first claim of a `pending` item marks it
`running`, plays the pre-sound and records `primed_at`, returning the empty
string; a later poll of the `running` item delivers the built text and marks
it `done` only once `TTS_PRE_DELAY_MS` has elapsed since `primed_at`.
Timestamps are modelled in milliseconds. -/

/-- Queue item status: `pending -> running -> done | failed`. -/
inductive QStatus where
  | pending
  | running
  | done
  | failed
  deriving Repr, DecidableEq

/-- Payload of a TTS queue item (`payload_json`). -/
structure TtsPayload where
  user : String
  message : String
  deriving Repr, DecidableEq

/-- A TTS queue item: id, status, payload and the `primed_at` timestamp. -/
structure QItem where
  id : Nat
  status : QStatus
  payload : TtsPayload
  primed_at : Option Int
  deriving Repr, DecidableEq

/-- Text building for delivery: with `TTS_PREFIX_USERNAME=true` the payload
`{"user": "alice", "message": "Hello"}` becomes `"Alice said: Hello"`,
otherwise just the message. -/
def buildText (prefix_username : Bool) (p : TtsPayload) : String :=
  if prefix_username then p.user.capitalize ++ " said: " ++ p.message
  else p.message

/-- Result of one `next_plain` poll: the returned string (empty when nothing
is deliverable yet) and whether the pre-sound side effect was triggered. -/
structure TtsRes where
  text : String
  preCue : Bool
  deriving Repr, DecidableEq

/-- Embeds `TTSService.next_plain`: find the first `pending` or `running`
item in creation order.  A `pending` item is claimed: status becomes
`running`, the pre-sound plays, `primed_at` is recorded and the empty string
is returned.  A `running` item is delivered only when `delayMs` has elapsed
since `primed_at`: the built text is returned and the item is marked `done`;
before that the poll is a no-op returning the empty string. -/
def next_plain (delayMs : Int) (prefix_username : Bool) (now : Int) :
    List QItem → TtsRes × List QItem
  | [] => (⟨"", false⟩, [])
  | it :: rest =>
    match it.status with
    | .pending =>
      (⟨"", true⟩, { it with status := .running, primed_at := some now } :: rest)
    | .running =>
      if now < it.primed_at.getD now + delayMs then (⟨"", false⟩, it :: rest)
      else (⟨buildText prefix_username it.payload, false⟩,
            { it with status := .done } :: rest)
    | _ =>
      match next_plain delayMs prefix_username now rest with
      | (r, rest2) => (r, it :: rest2)

/-! ## Batch coordinator

Modelled from the spec: the implementation of `batch_adjust_points`
(`app/admin/batch_operations.py`) is not in the corpus — only its API
documentation (src/unnamed/part_000).  Per the spec's Batch Coordinator
contract it iterates the target subjects, invokes the ledger operation
independently for each, catches per-subject failures without aborting the
remaining iteration, and aggregates `{total, success, failed, errors}`. -/

/-- Aggregated batch response. -/
structure BatchResult where
  total : Nat
  success : Nat
  failed : Nat
  errors : List (Nat × String)
  deriving Repr, DecidableEq

/-- Modelled from the spec: `batch_adjust_points` — apply
`adjust(uid, ±amount, reason, allow_negative)` to every targeted subject,
recording each failure in `errors` and continuing with the rest. -/
def batch_adjust_points (s : St) (operation : String) (amount : Int)
    (uids : List Nat) (reason : String) (allow_negative : Bool) :
    St × BatchResult :=
  uids.foldl
    (fun acc uid =>
      let delta := if operation = "subtract" then -amount else amount
      match adjust acc.1 uid delta reason allow_negative with
      | .ok (s2, _) =>
        (s2, { acc.2 with success := acc.2.success + 1 })
      | .error e =>
        (acc.1, { acc.2 with failed := acc.2.failed + 1,
                             errors := acc.2.errors ++ [(uid, e)] }))
    (s, ⟨uids.length, 0, 0, []⟩)

/-! ## Redeems

Embeds the validation steps of `RedeemsService.redeem` (docs/redeems.md):
enabled check, cooldown check, point spend, cooldown set, effect enqueue —
in that order — and the queue processor's failure transition. -/

/-- One row of the redeems table (the fields `redeem` reads). -/
structure RedeemDef where
  key : String
  cost : Int
  enabled : Bool
  cooldown_s : Int
  deriving Repr, DecidableEq

/-- A generic effect-queue item (payload kept opaque). -/
structure GQItem where
  id : Nat
  kind : String
  status : QStatus
  payload : String
  deriving Repr, DecidableEq

/-- Combined application state touched by a redeem. -/
structure AppSt where
  ledger : St
  cds : CooldownSt
  queue : List GQItem
  nextQId : Nat

/-- Result of a redeem call. -/
inductive RedeemRes where
  | ok (queue_id : Option Nat)
  | err (msg : String)

/-- Embeds `RedeemsService.redeem` validation steps 1-5 (docs/redeems.md):
reject when disabled; reject when the per-user cooldown is active; spend the
cost (reject on `ValueError`); set the cooldown when positive; enqueue the
effect as a `pending` item when a queue kind is given. -/
def redeem (now : Int) (app : AppSt) (uid : Nat) (rd : RedeemDef)
    (queue_kind : Option String) (payload : String) : RedeemRes × AppSt :=
  if !rd.enabled then (.err "Redeem disabled", app)
  else
    let key := "redeem:" ++ rd.key
    match is_active app.cds now uid key with
    | ((active, remaining), cds1) =>
      if active then
        (.err ("Cooldown: " ++ toString remaining ++ "s"), { app with cds := cds1 })
      else
        match spend app.ledger uid rd.cost ("redeem:" ++ rd.key) with
        | .error _ => (.err "Insufficient points", { app with cds := cds1 })
        | .ok (led2, _) =>
          let cds2 := if 0 < rd.cooldown_s then cdSet cds1 now uid key rd.cooldown_s
                      else cds1
          match queue_kind with
          | some k =>
            (.ok (some app.nextQId),
             { ledger := led2, cds := cds2,
               queue := app.queue ++ [⟨app.nextQId, k, .pending, payload⟩],
               nextQId := app.nextQId + 1 })
          | none =>
            (.ok none,
             { ledger := led2, cds := cds2, queue := app.queue,
               nextQId := app.nextQId })

/-- The queue processor's failure transition: an executor error marks the
current item `failed`; nothing else in the application state is touched. -/
def markFailed (app : AppSt) (qid : Nat) : AppSt :=
  let q2 := app.queue.map
    (fun it => if it.id = qid then { it with status := QStatus.failed } else it)
  { app with queue := q2 }

/-! ## Invariant predicates and concrete states used by the theorems -/

/-- Every stored balance equals the sum of that subject's transaction
deltas. -/
def SumInv (s : St) : Prop :=
  ∀ uid b, s.bal uid = some b → b = txnSum uid s.txns

/-- Freshness: ids at or above the autoincrement counter are unused, and
every logged transaction refers to an allocated id. -/
def FreshInv (s : St) : Prop :=
  (∀ uid, s.nextId ≤ uid → s.bal uid = none) ∧
  ∀ t ∈ s.txns, t.user_id < s.nextId

/-- The subject's balance, when present, is nonnegative. -/
def NonNegAt (uid : Nat) (s : St) : Prop :=
  ∀ b, s.bal uid = some b → 0 ≤ b

/-- Recursive form of the cumulative XP requirement. -/
def cumReq (req : Nat → Nat) : Nat → Nat
  | 0 => 0
  | l + 1 => if l = 0 then 0 else cumReq req l + req (l + 1)

/-- A concrete ledger state with one user (id 0) whose balance is 50. -/
def st50 : St := ⟨[⟨0, "alice"⟩], setBal (fun _ => none) 0 50, [], 1⟩

/-- A concrete ledger state for the redeem witness: one user (id 0) with
balance 50. -/
def stRedeem : St := ⟨[⟨0, "bob"⟩], setBal (fun _ => none) 0 50, [], 1⟩

/-- A concrete application state for the redeem witness. -/
def appRedeem : AppSt := ⟨stRedeem, ⟨fun _ => none⟩, [], 0⟩

/-- A concrete batch-witness state: users A = 0 (balance 5) and C = 2
(balance 7); id 1 has no points row. -/
def stBatch : St :=
  ⟨[⟨0, "a"⟩, ⟨2, "c"⟩], setBal (setBal (fun _ => none) 0 5) 2 7, [], 3⟩

/-- A concrete operation sequence for the ledger-invariant witness. -/
def opsC1 : List Op :=
  [.ensure "alice", .grant 0 50 "tip", .spend 0 30 "wheel_spin",
   .adjust 0 (-10) "correction" false]

end Pixel

namespace Pixel

/-! ## Claim C2: insufficient-balance spend is rejected without mutation -/

/-- Claim C2: whenever a user's balance `b` is strictly below `amount`,
`spend` fails with the insufficient-balance error and the ledger state —
balance and transaction log — is left exactly as it was. -/
theorem spend_insufficient_rejected (s : St) (uid : Nat) (b amount : Int)
    (reason : String) (hb : s.bal uid = some b) (hlt : b < amount) :
    spend s uid amount reason = .error "Insufficient points" ∧
    (∀ start, step start s (Op.spend uid amount reason) = s) := by
  have hsp : spend s uid amount reason = .error "Insufficient points" := by
    unfold spend
    rw [hb]
    simp [hlt]
  refine ⟨hsp, fun start => ?_⟩
  simp only [step]
  rw [hsp]

/-- Witness for C2: spending 1000 from a balance of 50 fails and leaves the
state untouched. -/
theorem spend_insufficient_rejected_witness :
    st50.bal 0 = some 50 ∧ (50 : Int) < 1000 ∧
    (spend st50 0 1000 "x" = .error "Insufficient points" ∧
      ∀ start, step start st50 (Op.spend 0 1000 "x") = st50) :=
  ⟨rfl, by decide, spend_insufficient_rejected st50 0 50 1000 "x" rfl (by decide)⟩

/-! ## Claim C5: cooldown set at t=0 for 60s — active at t=30, clear at t=61 -/

/-- Claim C5: after `set(uid, key, 60)` at time 0, `is_active` at time 30
reports the cooldown active with exactly 30 whole seconds remaining and
returns the state unmutated, and `is_active` at time 61 reports it inactive
with 0 remaining. -/
theorem cooldown_window (s : CooldownSt) (uid : Nat) (key : String) :
    is_active (cdSet s 0 uid key 60) 30 uid key =
      ((true, 30), cdSet s 0 uid key 60) ∧
    (is_active (cdSet s 0 uid key 60) 61 uid key).1 = (false, 0) := by
  constructor
  · unfold is_active cdSet
    norm_num
  · unfold is_active cdSet
    norm_num

/-! ## Claims C3 and C7: the leveling curve

Supporting lemmas about `levelFromXpGo` and `sumReq`, proved for an
arbitrary per-level requirement function `req`, then instantiated at the
concrete curve `intPow18 100`. -/

theorem cumReq_succ (req : Nat → Nat) (l : Nat) (hl : 1 ≤ l) :
    cumReq req (l + 1) = cumReq req l + req (l + 1) := by
  cases l with
  | zero => omega
  | succ k => simp [cumReq]

theorem cumReq_mono (req : Nat → Nat) {k l : Nat} (h : k ≤ l) :
    cumReq req k ≤ cumReq req l := by
  induction l with
  | zero => simp_all
  | succ m ih =>
    rcases Nat.lt_or_ge k (m + 1) with hk | hk
    · refine le_trans (ih (by omega)) ?_
      cases m with
      | zero => simp [cumReq]
      | succ j => rw [cumReq_succ req (j + 1) (by omega)]; omega
    · have : k = m + 1 := by omega
      subst this; rfl

theorem sumReq_eq_cumReq (req : Nat → Nat) (level : Nat) :
    sumReq req level = cumReq req level := by
  induction level with
  | zero => simp [sumReq, cumReq]
  | succ l ih =>
    cases l with
    | zero => simp [sumReq, cumReq]
    | succ k =>
      cases k with
      | zero => simp [sumReq, cumReq, List.range']
      | succ j =>
        rw [cumReq_succ req (j + 2) (by omega), ← ih]
        simp only [sumReq]
        rw [if_neg (by omega), if_neg (by omega)]
        have h1 : j + 1 + 1 + 1 - 1 = (j + 1) + 1 := by omega
        have h2 : j + 1 + 1 - 1 = j + 1 := by omega
        rw [h1, h2, List.range'_concat]
        have h3 : 2 + 1 * (j + 1) = j + 1 + 1 + 1 := by omega
        rw [h3]
        simp

theorem levelFromXpGo_le (req : Nat → Nat) (xp : Nat) :
    ∀ fuel level cum, level ≤ levelFromXpGo req xp fuel level cum := by
  intro fuel
  induction fuel with
  | zero => intro level cum; simp [levelFromXpGo]
  | succ f ih =>
    intro level cum
    simp only [levelFromXpGo]
    split
    · exact le_refl _
    · exact le_trans (by omega) (ih (level + 1) _)

theorem levelFromXpGo_le_add (req : Nat → Nat) (xp : Nat) :
    ∀ fuel level cum, levelFromXpGo req xp fuel level cum ≤ level + fuel := by
  intro fuel
  induction fuel with
  | zero => intro level cum; simp [levelFromXpGo]
  | succ f ih =>
    intro level cum
    simp only [levelFromXpGo]
    split
    · omega
    · exact le_trans (ih (level + 1) _) (by omega)

theorem levelFromXpGo_mono (req : Nat → Nat) {xp xp' : Nat} (hxp : xp ≤ xp') :
    ∀ fuel level cum,
      levelFromXpGo req xp fuel level cum ≤
        levelFromXpGo req xp' fuel level cum := by
  intro fuel
  induction fuel with
  | zero => intro level cum; simp [levelFromXpGo]
  | succ f ih =>
    intro level cum
    simp only [levelFromXpGo]
    split
    · split
      · exact le_refl _
      · exact le_trans (by omega) (levelFromXpGo_le req xp' f (level + 1) _)
    · rename_i hcont
      rw [if_neg (by omega)]
      exact ih (level + 1) _

theorem levelFromXpGo_sound (req : Nat → Nat) (xp : Nat) :
    ∀ fuel level, 1 ≤ level → cumReq req level ≤ xp →
      cumReq req (levelFromXpGo req xp fuel level (cumReq req level)) ≤ xp ∧
      (levelFromXpGo req xp fuel level (cumReq req level) = level + fuel ∨
        xp < cumReq req (levelFromXpGo req xp fuel level (cumReq req level) + 1)) := by
  intro fuel
  induction fuel with
  | zero =>
    intro level hlev hcum
    exact ⟨hcum, Or.inl rfl⟩
  | succ f ih =>
    intro level hlev hcum
    simp only [levelFromXpGo]
    split
    · rename_i hstop
      refine ⟨hcum, Or.inr ?_⟩
      rw [cumReq_succ req level hlev]
      omega
    · rename_i hcont
      have hnext : cumReq req level + req (level + 1) = cumReq req (level + 1) :=
        (cumReq_succ req level hlev).symm
      rw [hnext]
      have := ih (level + 1) (by omega) (by omega)
      refine ⟨this.1, ?_⟩
      rcases this.2 with h | h
      · exact Or.inl (by omega)
      · exact Or.inr h

/-- Counterexample to claim C3: with the default configuration
`base = 100`, `exponent = 1.8`, the code computes
`xp_for_level(2) = int(100 * 2 ** 1.8) = 348`, not 100, and
`level_from_xp(150) = 1`, not 2 (the very first step of the loop already
needs 348 XP for level 2, so 150 XP stays at level 1). -/
theorem xp_curve_claimed_values_false :
    xp_for_level 2 ≠ 100 ∧ level_from_xp 150 9999 ≠ 2 := by
  constructor <;> decide

/-- Claim C3 (amended): with the default configuration `base = 100`,
`exponent = 1.8`, `xp_for_level(2)` returns 348 and `level_from_xp(150)`
returns 1. -/
theorem xp_curve_concrete_values :
    xp_for_level 2 = 348 ∧ level_from_xp 150 9999 = 1 := by
  constructor <;> decide

/-- Claim C7: `level_from_xp` is monotonic in `total_xp`, and
`level_from_xp(total_xp)` is the largest level — capped at the configured
`max_level` — whose cumulative requirement `xp_for_level` does not exceed
`total_xp`. -/
theorem level_from_xp_monotone_and_greatest (x y max_level : Nat)
    (hmax : 1 ≤ max_level) (hxy : x ≤ y) :
    level_from_xp x max_level ≤ level_from_xp y max_level ∧
    xp_for_level (level_from_xp x max_level) ≤ x ∧
    level_from_xp x max_level ≤ max_level ∧
    ∀ L, L ≤ max_level → xp_for_level L ≤ x → L ≤ level_from_xp x max_level := by
  have hcum1 : cumReq (intPow18 100) 1 = 0 := by simp [cumReq]
  have hbase : ∀ z : Nat, cumReq (intPow18 100) 1 ≤ z := by
    intro z; rw [hcum1]; exact Nat.zero_le z
  have hsound := levelFromXpGo_sound (intPow18 100) x (max_level - 1) 1
    (le_refl 1) (hbase x)
  rw [hcum1] at hsound
  have hx_le : level_from_xp x max_level ≤ max_level := by
    have := levelFromXpGo_le_add (intPow18 100) x (max_level - 1) 1 0
    unfold level_from_xp
    omega
  refine ⟨?_, ?_, hx_le, ?_⟩
  · unfold level_from_xp
    exact levelFromXpGo_mono (intPow18 100) hxy (max_level - 1) 1 0
  · rw [xp_for_level, sumReq_eq_cumReq]
    exact hsound.1
  · intro L hL hLxp
    rcases hsound.2 with h | h
    · unfold level_from_xp
      rw [h]
      omega
    · by_contra hgt
      push_neg at hgt
      have hmono : cumReq (intPow18 100) (level_from_xp x max_level + 1) ≤
          cumReq (intPow18 100) L := cumReq_mono _ (by omega)
      rw [xp_for_level, sumReq_eq_cumReq] at hLxp
      unfold level_from_xp at hgt hmono
      omega

/-! ## Claim C4: multiple level-ups invoke each intermediate rule once -/

theorem levelStep_trace (rewards : Nat → Option Reward) (uid : Nat)
    (user_name : String) :
    ∀ (l : List Nat) (s : St) (log : List (Nat × List RAction)),
      ((l.foldl (levelStep rewards uid user_name) (s, log)).2).map Prod.fst =
        log.map Prod.fst ++ l := by
  intro l
  induction l with
  | nil => intro s log; simp
  | cons lvl rest ih =>
    intro s log
    simp only [List.foldl_cons]
    rw [ih]
    simp [levelStep]

/-- Claim C4: when `level_after > level_before`, the reward-rule lookup is
invoked exactly once for every integer level in the half-open interval
`(level_before, level_after]`, in ascending order: the trace of levels passed
to `apply_level_rewards` is exactly `range(level_before + 1,
level_after + 1)`, each qualifying level appears in it exactly once, and the
trace is strictly increasing. -/
theorem level_up_rewards_each_level_once (rewards : Nat → Option Reward)
    (s : St) (uid : Nat) (user_name : String) (lb la : Nat) (h : lb < la) :
    ((process_level_ups rewards s uid user_name lb la).2.map Prod.fst =
      List.range' (lb + 1) (la - lb)) ∧
    (∀ L, L ∈ (process_level_ups rewards s uid user_name lb la).2.map Prod.fst ↔
      lb < L ∧ L ≤ la) ∧
    List.Pairwise (· < ·)
      ((process_level_ups rewards s uid user_name lb la).2.map Prod.fst) ∧
    ∀ L, lb < L → L ≤ la →
      ((process_level_ups rewards s uid user_name lb la).2.map Prod.fst).count L
        = 1 := by
  have htr : (process_level_ups rewards s uid user_name lb la).2.map Prod.fst =
      List.range' (lb + 1) (la - lb) := by
    unfold process_level_ups
    rw [if_pos h]
    rw [levelStep_trace rewards uid user_name _ s []]
    simp
  have hmem : ∀ L,
      L ∈ (process_level_ups rewards s uid user_name lb la).2.map Prod.fst ↔
        lb < L ∧ L ≤ la := by
    intro L
    rw [htr, List.mem_range'_1]
    omega
  refine ⟨htr, hmem, ?_, ?_⟩
  · rw [htr]
    exact List.pairwise_lt_range' (lb + 1) (la - lb)
  · intro L h1 h2
    have hnd : ((process_level_ups rewards s uid user_name lb la).2.map
        Prod.fst).Nodup := by
      rw [htr]; exact List.nodup_range' (lb + 1) (la - lb)
    exact List.count_eq_one_of_mem hnd ((hmem L).mpr ⟨h1, h2⟩)

/-- Witness for C4: a subject at level 4 reaching level 8 triggers the rules
for levels 5, 6, 7, 8 in that order, each exactly once. -/
theorem level_up_rewards_each_level_once_witness :
    4 < 8 ∧ List.range' (4 + 1) (8 - 4) = [5, 6, 7, 8] ∧
    (((process_level_ups (fun _ => none) initSt 0 "alice" 4 8).2.map Prod.fst =
        List.range' (4 + 1) (8 - 4)) ∧
      (∀ L, L ∈ (process_level_ups (fun _ => none) initSt 0 "alice" 4 8).2.map
          Prod.fst ↔ 4 < L ∧ L ≤ 8) ∧
      List.Pairwise (· < ·)
        ((process_level_ups (fun _ => none) initSt 0 "alice" 4 8).2.map
          Prod.fst) ∧
      ∀ L, 4 < L → L ≤ 8 →
        ((process_level_ups (fun _ => none) initSt 0 "alice" 4 8).2.map
          Prod.fst).count L = 1) :=
  ⟨by decide, by decide,
    level_up_rewards_each_level_once (fun _ => none) initSt 0 "alice" 4 8
      (by decide)⟩

/-- Witness for C7 at `x = 150`, `y = 500`, `max_level = 9999`. -/
theorem level_from_xp_monotone_and_greatest_witness :
    1 ≤ 9999 ∧ 150 ≤ 500 ∧
    (level_from_xp 150 9999 ≤ level_from_xp 500 9999 ∧
      xp_for_level (level_from_xp 150 9999) ≤ 150 ∧
      level_from_xp 150 9999 ≤ 9999 ∧
      ∀ L, L ≤ 9999 → xp_for_level L ≤ 150 → L ≤ level_from_xp 150 9999) :=
  ⟨by decide, by decide,
    level_from_xp_monotone_and_greatest 150 500 9999 (by decide) (by decide)⟩

/-! ## Claim C1: the ledger balance invariant

Supporting lemmas: pointwise behaviour of the balance map, transaction-sum
arithmetic, one characterization lemma per branch of each ledger operation,
and preservation of the invariants along any operation sequence. -/

theorem setBal_same (f : Nat → Option Int) (uid : Nat) (b : Int) :
    setBal f uid b uid = some b := by simp [setBal]

theorem setBal_other (f : Nat → Option Int) (uid u : Nat) (b : Int)
    (h : u ≠ uid) : setBal f uid b u = f u := by simp [setBal, h]

theorem txnSum_append (uid : Nat) (ts : List Txn) (t : Txn) :
    txnSum uid (ts ++ [t]) =
      txnSum uid ts + (if t.user_id = uid then t.delta else 0) := by
  unfold txnSum
  rw [List.filter_append, List.map_append, List.sum_append]
  by_cases h : t.user_id = uid
  · have hb : (t.user_id == uid) = true := by simpa using h
    simp [List.filter, hb, h]
  · have hb : (t.user_id == uid) = false := by simpa using h
    simp [List.filter, hb, h]

theorem txnSum_eq_zero (uid : Nat) (ts : List Txn)
    (h : ∀ t ∈ ts, t.user_id ≠ uid) : txnSum uid ts = 0 := by
  unfold txnSum
  have hnil : ts.filter (fun t => t.user_id == uid) = [] := by
    rw [List.filter_eq_nil_iff]
    intro t ht
    simpa using h t ht
  rw [hnil]
  simp

theorem grant_ok (s : St) (uid : Nat) (a : Int) (r : String) (x : Int)
    (hbal : s.bal uid = some x) :
    grant s uid a r =
      .ok ({ s with bal := setBal s.bal uid (x + a),
                    txns := s.txns ++ [⟨uid, "grant", a, r⟩] }, x + a) := by
  simp only [grant, hbal]

theorem grant_err (s : St) (uid : Nat) (a : Int) (r : String)
    (hbal : s.bal uid = none) : grant s uid a r = .error "not found" := by
  simp only [grant, hbal]

theorem spend_ok (s : St) (uid : Nat) (a : Int) (r : String) (x : Int)
    (hbal : s.bal uid = some x) (hle : a ≤ x) :
    spend s uid a r =
      .ok ({ s with bal := setBal s.bal uid (x - a),
                    txns := s.txns ++ [⟨uid, "spend", -a, r⟩] }, x - a) := by
  simp only [spend, hbal]
  rw [if_neg (by omega)]

theorem spend_err_none (s : St) (uid : Nat) (a : Int) (r : String)
    (hbal : s.bal uid = none) :
    spend s uid a r = .error "Insufficient points" := by
  simp only [spend, hbal]

theorem spend_err_lt (s : St) (uid : Nat) (a : Int) (r : String) (x : Int)
    (hbal : s.bal uid = some x) (hlt : x < a) :
    spend s uid a r = .error "Insufficient points" := by
  simp only [spend, hbal]
  rw [if_pos hlt]

theorem adjust_ok (s : St) (uid : Nat) (d : Int) (r : String) (an : Bool)
    (x : Int) (hbal : s.bal uid = some x)
    (hng : ¬(!an && decide (x + d < 0)) = true) :
    adjust s uid d r an =
      .ok ({ s with bal := setBal s.bal uid (x + d),
                    txns := s.txns ++ [⟨uid, "adjust", d, r⟩] }, x + d) := by
  simp only [adjust, hbal]
  rw [if_neg hng]

theorem adjust_err_none (s : St) (uid : Nat) (d : Int) (r : String)
    (an : Bool) (hbal : s.bal uid = none) :
    adjust s uid d r an = .error "not found" := by
  simp only [adjust, hbal]

theorem adjust_err_neg (s : St) (uid : Nat) (d : Int) (r : String)
    (an : Bool) (x : Int) (hbal : s.bal uid = some x)
    (hng : (!an && decide (x + d < 0)) = true) :
    adjust s uid d r an = .error "Insufficient points" := by
  simp only [adjust, hbal]
  rw [if_pos hng]

theorem ensure_user_found (start : Int) (s : St) (name : String)
    (u : UserRec) (hf : s.users.find? (fun v => v.name == name) = some u) :
    ensure_user start s name = (s, u.id) := by
  simp only [ensure_user, hf]

theorem ensure_user_new_pos (start : Int) (s : St) (name : String)
    (hf : s.users.find? (fun v => v.name == name) = none) (hs : 0 < start) :
    ensure_user start s name =
      ({ users := s.users ++ [⟨s.nextId, name⟩],
         bal := setBal (setBal s.bal s.nextId 0) s.nextId start,
         txns := s.txns ++ [⟨s.nextId, "grant", start, "start"⟩],
         nextId := s.nextId + 1 }, s.nextId) := by
  simp only [ensure_user, hf]
  rw [if_pos hs]

theorem ensure_user_new_nonpos (start : Int) (s : St) (name : String)
    (hf : s.users.find? (fun v => v.name == name) = none)
    (hs : ¬0 < start) :
    ensure_user start s name =
      ({ users := s.users ++ [⟨s.nextId, name⟩],
         bal := setBal s.bal s.nextId 0,
         txns := s.txns,
         nextId := s.nextId + 1 }, s.nextId) := by
  simp only [ensure_user, hf]
  rw [if_neg hs]

theorem inv_commit (s : St) (uid : Nat) (b b' d : Int) (ty reason : String)
    (hb : s.bal uid = some b) (hd : b' = b + d)
    (h1 : SumInv s) (h2 : FreshInv s) :
    SumInv { s with bal := setBal s.bal uid b',
                    txns := s.txns ++ [⟨uid, ty, d, reason⟩] } ∧
    FreshInv { s with bal := setBal s.bal uid b',
                      txns := s.txns ++ [⟨uid, ty, d, reason⟩] } := by
  obtain ⟨h2a, h2b⟩ := h2
  have huid : uid < s.nextId := by
    by_contra hge
    push_neg at hge
    rw [h2a uid hge] at hb
    exact Option.noConfusion hb
  refine ⟨?_, ?_, ?_⟩
  · intro u x hx
    simp only at hx
    rw [txnSum_append]
    by_cases hu : u = uid
    · rw [hu, setBal_same] at hx
      injection hx with hx
      have hsum := h1 uid b hb
      rw [hu]
      simp
      omega
    · rw [setBal_other _ _ _ _ hu] at hx
      have hsum := h1 u x hx
      rw [if_neg (fun hc => hu hc.symm)]
      omega
  · intro u hu
    simp only at hu ⊢
    have hne : u ≠ uid := by omega
    rw [setBal_other _ _ _ _ hne]
    exact h2a u hu
  · intro t ht
    simp only at ht ⊢
    rcases List.mem_append.mp ht with hmem | hmem
    · exact h2b t hmem
    · simp only [List.mem_singleton] at hmem
      rw [hmem]
      exact huid

theorem inv_ensure (start : Int) (s : St) (name : String)
    (h1 : SumInv s) (h2 : FreshInv s) :
    SumInv (ensure_user start s name).1 ∧
    FreshInv (ensure_user start s name).1 := by
  obtain ⟨h2a, h2b⟩ := h2
  cases hf : s.users.find? (fun v => v.name == name) with
  | some u =>
    rw [ensure_user_found start s name u hf]
    exact ⟨h1, h2a, h2b⟩
  | none =>
    have hfresh : ∀ t ∈ s.txns, t.user_id ≠ s.nextId := by
      intro t ht
      have := h2b t ht
      omega
    by_cases hs : 0 < start
    · rw [ensure_user_new_pos start s name hf hs]
      refine ⟨?_, ?_, ?_⟩
      · intro u x hx
        simp only at hx
        rw [txnSum_append]
        by_cases hu : u = s.nextId
        · rw [hu, setBal_same] at hx
          injection hx with hx
          rw [hu, txnSum_eq_zero s.nextId s.txns hfresh]
          simp
          omega
        · rw [setBal_other _ _ _ _ hu, setBal_other _ _ _ _ hu] at hx
          have hsum := h1 u x hx
          rw [if_neg (fun hc => hu hc.symm)]
          omega
      · intro u hu
        simp only at hu ⊢
        have hne : u ≠ s.nextId := by omega
        rw [setBal_other _ _ _ _ hne, setBal_other _ _ _ _ hne]
        exact h2a u (by omega)
      · intro t ht
        simp only at ht ⊢
        rcases List.mem_append.mp ht with hmem | hmem
        · have := h2b t hmem
          omega
        · simp only [List.mem_singleton] at hmem
          rw [hmem]
          dsimp only
          omega
    · rw [ensure_user_new_nonpos start s name hf hs]
      refine ⟨?_, ?_, ?_⟩
      · intro u x hx
        simp only at hx
        by_cases hu : u = s.nextId
        · rw [hu, setBal_same] at hx
          injection hx with hx
          simp only
          rw [hu, txnSum_eq_zero s.nextId s.txns hfresh]
          omega
        · rw [setBal_other _ _ _ _ hu] at hx
          exact h1 u x hx
      · intro u hu
        simp only at hu ⊢
        have hne : u ≠ s.nextId := by omega
        rw [setBal_other _ _ _ _ hne]
        exact h2a u (by omega)
      · intro t ht
        simp only at ht ⊢
        have := h2b t ht
        omega

theorem inv_step (start : Int) (s : St) (op : Op)
    (h1 : SumInv s) (h2 : FreshInv s) :
    SumInv (step start s op) ∧ FreshInv (step start s op) := by
  cases op with
  | ensure name => exact inv_ensure start s name h1 h2
  | grant uid a r =>
    simp only [step]
    cases hbal : s.bal uid with
    | none =>
      rw [grant_err s uid a r hbal]
      exact ⟨h1, h2⟩
    | some x =>
      rw [grant_ok s uid a r x hbal]
      exact inv_commit s uid x (x + a) a "grant" r hbal rfl h1 h2
  | spend uid a r =>
    simp only [step]
    cases hbal : s.bal uid with
    | none =>
      rw [spend_err_none s uid a r hbal]
      exact ⟨h1, h2⟩
    | some x =>
      by_cases hlt : x < a
      · rw [spend_err_lt s uid a r x hbal hlt]
        exact ⟨h1, h2⟩
      · rw [spend_ok s uid a r x hbal (by omega)]
        exact inv_commit s uid x (x - a) (-a) "spend" r hbal (by omega) h1 h2
  | adjust uid d r an =>
    simp only [step]
    cases hbal : s.bal uid with
    | none =>
      rw [adjust_err_none s uid d r an hbal]
      exact ⟨h1, h2⟩
    | some x =>
      by_cases hng : (!an && decide (x + d < 0)) = true
      · rw [adjust_err_neg s uid d r an x hbal hng]
        exact ⟨h1, h2⟩
      · rw [adjust_ok s uid d r an x hbal hng]
        exact inv_commit s uid x (x + d) d "adjust" r hbal rfl h1 h2

theorem nonnegAt_step (start : Int) (hs : 0 ≤ start) (uid : Nat) (s : St)
    (op : Op) (hwf : opWF op) (hov : isOverride uid op = false)
    (h : NonNegAt uid s) : NonNegAt uid (step start s op) := by
  cases op with
  | ensure name =>
    intro b hb
    simp only [step] at hb
    cases hf : s.users.find? (fun v => v.name == name) with
    | some u =>
      rw [ensure_user_found start s name u hf] at hb
      exact h b hb
    | none =>
      by_cases hst : 0 < start
      · rw [ensure_user_new_pos start s name hf hst] at hb
        simp only at hb
        by_cases hu : uid = s.nextId
        · rw [hu, setBal_same] at hb
          injection hb with hb
          omega
        · rw [setBal_other _ _ _ _ hu, setBal_other _ _ _ _ hu] at hb
          exact h b hb
      · rw [ensure_user_new_nonpos start s name hf hst] at hb
        simp only at hb
        by_cases hu : uid = s.nextId
        · rw [hu, setBal_same] at hb
          injection hb with hb
          omega
        · rw [setBal_other _ _ _ _ hu] at hb
          exact h b hb
  | grant guid a r =>
    intro b hb
    simp only [step] at hb
    cases hbal : s.bal guid with
    | none =>
      rw [grant_err s guid a r hbal] at hb
      exact h b hb
    | some x =>
      rw [grant_ok s guid a r x hbal] at hb
      simp only at hb
      by_cases hu : uid = guid
      · rw [hu, setBal_same] at hb
        injection hb with hb
        rw [hu] at h
        have hx := h x hbal
        have ha : 0 < a := hwf
        omega
      · rw [setBal_other _ _ _ _ hu] at hb
        exact h b hb
  | spend suid a r =>
    intro b hb
    simp only [step] at hb
    cases hbal : s.bal suid with
    | none =>
      rw [spend_err_none s suid a r hbal] at hb
      exact h b hb
    | some x =>
      by_cases hlt : x < a
      · rw [spend_err_lt s suid a r x hbal hlt] at hb
        exact h b hb
      · rw [spend_ok s suid a r x hbal (by omega)] at hb
        simp only at hb
        by_cases hu : uid = suid
        · rw [hu, setBal_same] at hb
          injection hb with hb
          omega
        · rw [setBal_other _ _ _ _ hu] at hb
          exact h b hb
  | adjust auid d r an =>
    intro b hb
    simp only [step] at hb
    cases hbal : s.bal auid with
    | none =>
      rw [adjust_err_none s auid d r an hbal] at hb
      exact h b hb
    | some x =>
      by_cases hng : (!an && decide (x + d < 0)) = true
      · rw [adjust_err_neg s auid d r an x hbal hng] at hb
        exact h b hb
      · rw [adjust_ok s auid d r an x hbal hng] at hb
        simp only at hb
        by_cases hu : uid = auid
        · rw [hu, setBal_same] at hb
          injection hb with hb
          cases han : an with
          | false =>
            rw [han] at hng
            simp only [Bool.not_false, Bool.true_and] at hng
            have hge : ¬(x + d < 0) := by
              intro hcon
              exact hng (by simpa using hcon)
            omega
          | true =>
            rw [hu, han] at hov
            simp [isOverride] at hov
        · rw [setBal_other _ _ _ _ hu] at hb
          exact h b hb

theorem runOps_cons (start : Int) (op : Op) (rest : List Op) (s : St) :
    runOps start (op :: rest) s = runOps start rest (step start s op) := rfl

theorem runOps_inv (start : Int) :
    ∀ ops (s : St), SumInv s → FreshInv s →
      SumInv (runOps start ops s) ∧ FreshInv (runOps start ops s) := by
  intro ops
  induction ops with
  | nil => intro s h1 h2; exact ⟨h1, h2⟩
  | cons op rest ih =>
    intro s h1 h2
    rw [runOps_cons]
    have hstep := inv_step start s op h1 h2
    exact ih _ hstep.1 hstep.2

theorem hasOverride_cons (uid : Nat) (op : Op) (rest : List Op)
    (h : hasOverride uid (op :: rest) = false) :
    isOverride uid op = false ∧ hasOverride uid rest = false := by
  simp only [hasOverride, List.any_cons, Bool.or_eq_false_iff] at h
  exact ⟨h.1, h.2⟩

theorem runOps_nonneg (start : Int) (hs : 0 ≤ start) (uid : Nat) :
    ∀ ops (s : St), (∀ op ∈ ops, opWF op) → hasOverride uid ops = false →
      NonNegAt uid s → NonNegAt uid (runOps start ops s) := by
  intro ops
  induction ops with
  | nil => intro s _ _ h; exact h
  | cons op rest ih =>
    intro s hwf hov h
    rw [runOps_cons]
    obtain ⟨hov1, hov2⟩ := hasOverride_cons uid op rest hov
    exact ih _ (fun o ho => hwf o (List.mem_cons_of_mem op ho)) hov2
      (nonnegAt_step start hs uid s op (hwf op (List.mem_cons_self op rest))
        hov1 h)

/-- Claim C1: in every ledger state reachable by a sequence of
`ensure_user` / `grant` / `spend` / `adjust` operations (grants having
positive amounts, per the Ledger contract, and a nonnegative configured
start amount), every subject's stored balance equals the sum of the delta
fields of that subject's transactions, and the balance is nonnegative
unless an `adjust` with `allow_negative_balance = true` was issued for that
subject. -/
theorem ledger_balance_invariant (start : Int) (ops : List Op)
    (hs : 0 ≤ start) (hwf : ∀ op ∈ ops, opWF op) :
    (∀ uid b, (runOps start ops initSt).bal uid = some b →
      b = txnSum uid (runOps start ops initSt).txns) ∧
    (∀ uid b, hasOverride uid ops = false →
      (runOps start ops initSt).bal uid = some b → 0 ≤ b) := by
  have hinit1 : SumInv initSt := by
    intro uid b hb
    simp [initSt] at hb
  have hinit2 : FreshInv initSt := by
    constructor
    · intro uid _
      simp [initSt]
    · intro t ht
      simp [initSt] at ht
  constructor
  · exact (runOps_inv start ops initSt hinit1 hinit2).1
  · intro uid b hov hb
    refine runOps_nonneg start hs uid ops initSt hwf hov ?_ b hb
    intro x hx
    simp [initSt] at hx

/-- Witness for C1 on a concrete run: create a user with start amount 100,
grant 50, spend 30, adjust by -10 without the override flag. -/
theorem ledger_balance_invariant_witness :
    (0 : Int) ≤ 100 ∧ (∀ op ∈ opsC1, opWF op) ∧
    ((∀ uid b, (runOps 100 opsC1 initSt).bal uid = some b →
        b = txnSum uid (runOps 100 opsC1 initSt).txns) ∧
      (∀ uid b, hasOverride uid opsC1 = false →
        (runOps 100 opsC1 initSt).bal uid = some b → 0 ≤ b)) :=
  ⟨by decide, by decide, ledger_balance_invariant 100 opsC1 (by decide)
    (by decide)⟩

/-! ## Claim C9: ensure_user seeds new users with the start amount -/

/-- Claim C9: with a positive configured `POINTS_START_AMOUNT`,
`ensure_user` on an unknown name creates the user with balance equal to the
start amount and appends one `grant` transaction of that amount with reason
`"start"`; on a known name it returns that user's id and leaves the state
completely unchanged. -/
theorem ensure_user_start_amount (s : St) (start : Int) (name : String)
    (hstart : 0 < start) :
    (s.users.find? (fun v => v.name == name) = none →
      (ensure_user start s name).2 = s.nextId ∧
      (ensure_user start s name).1.bal s.nextId = some start ∧
      (ensure_user start s name).1.txns =
        s.txns ++ [⟨s.nextId, "grant", start, "start"⟩] ∧
      (ensure_user start s name).1.users = s.users ++ [⟨s.nextId, name⟩]) ∧
    (∀ u, s.users.find? (fun v => v.name == name) = some u →
      ensure_user start s name = (s, u.id)) := by
  constructor
  · intro hf
    rw [ensure_user_new_pos start s name hf hstart]
    refine ⟨rfl, ?_, rfl, rfl⟩
    exact setBal_same _ _ _
  · intro u hf
    exact ensure_user_found start s name u hf

/-- Witness for C9 at the empty database with the default start amount
100 and the name `"alice"`. -/
theorem ensure_user_start_amount_witness :
    (0 : Int) < 100 ∧
    ((initSt.users.find? (fun v => v.name == "alice") = none →
        (ensure_user 100 initSt "alice").2 = initSt.nextId ∧
        (ensure_user 100 initSt "alice").1.bal initSt.nextId = some 100 ∧
        (ensure_user 100 initSt "alice").1.txns =
          initSt.txns ++ [⟨initSt.nextId, "grant", 100, "start"⟩] ∧
        (ensure_user 100 initSt "alice").1.users =
          initSt.users ++ [⟨initSt.nextId, "alice"⟩]) ∧
      (∀ u, initSt.users.find? (fun v => v.name == "alice") = some u →
        ensure_user 100 initSt "alice" = (initSt, u.id))) :=
  ⟨by decide, ensure_user_start_amount initSt 100 "alice" (by decide)⟩

/-! ## Claim C6: two-stage TTS delivery -/

/-- Claim C6: for a queued speech item, the first poll claims it
(`pending` to `running`), triggers the pre-cue, records the priming
timestamp and returns no deliverable content; any poll before the configured
delay has elapsed returns nothing and leaves the item `running` unchanged;
the first poll at or after `primed_at + delayMs` returns the formatted text
(username prefix applied when configured) and marks the item `done`. -/
theorem tts_two_phase (delayMs : Int) (pfx_username : Bool) (p : TtsPayload)
    (qid : Nat) (t0 t1 t2 : Int) (h1 : t1 < t0 + delayMs)
    (h2 : t0 + delayMs ≤ t2) :
    next_plain delayMs pfx_username t0 [⟨qid, .pending, p, none⟩] =
      (⟨"", true⟩, [⟨qid, .running, p, some t0⟩]) ∧
    next_plain delayMs pfx_username t1 [⟨qid, .running, p, some t0⟩] =
      (⟨"", false⟩, [⟨qid, .running, p, some t0⟩]) ∧
    next_plain delayMs pfx_username t2 [⟨qid, .running, p, some t0⟩] =
      (⟨buildText pfx_username p, false⟩, [⟨qid, .done, p, some t0⟩]) := by
  refine ⟨rfl, ?_, ?_⟩
  · simp only [next_plain, Option.getD]
    rw [if_pos h1]
  · simp only [next_plain, Option.getD]
    rw [if_neg (by omega)]

/-- Witness for C6: delay 1200 ms, priming poll at t=0, early poll at
t=500 (nothing delivered), delivery poll at t=1200 yielding
`"Alice said: Hello world"` with the username prefix configured. -/
theorem tts_two_phase_witness :
    (500 : Int) < 0 + 1200 ∧ (0 : Int) + 1200 ≤ 1200 ∧
    buildText true ⟨"alice", "Hello world"⟩ = "Alice said: Hello world" ∧
    (next_plain 1200 true 0 [⟨7, .pending, ⟨"alice", "Hello world"⟩, none⟩] =
        (⟨"", true⟩, [⟨7, .running, ⟨"alice", "Hello world"⟩, some 0⟩]) ∧
      next_plain 1200 true 500
          [⟨7, .running, ⟨"alice", "Hello world"⟩, some 0⟩] =
        (⟨"", false⟩, [⟨7, .running, ⟨"alice", "Hello world"⟩, some 0⟩]) ∧
      next_plain 1200 true 1200
          [⟨7, .running, ⟨"alice", "Hello world"⟩, some 0⟩] =
        (⟨buildText true ⟨"alice", "Hello world"⟩, false⟩,
         [⟨7, .done, ⟨"alice", "Hello world"⟩, some 0⟩])) :=
  ⟨by decide, by decide, by decide,
    tts_two_phase 1200 true ⟨"alice", "Hello world"⟩ 7 0 500 1200
      (by decide) (by decide)⟩

/-! ## Claim C8: batch operations isolate per-subject failures -/

/-- Claim C8: a batch add of 100 to subjects `[A, B, C]` where `B` has no
points row processes every subject independently: the missing subject is
recorded as a `not found` error and counted as the single failure, while `A`
and `C` (with nonnegative balances `a` and `c`) each gain exactly 100; the
response reports total 3, success 2, failed 1. -/
theorem batch_add_isolates_failures (s : St) (A B C : Nat) (a c : Int)
    (r : String) (hA : s.bal A = some a) (hB : s.bal B = none)
    (hC : s.bal C = some c) (hAC : A ≠ C) (ha : 0 ≤ a) (hc : 0 ≤ c) :
    (batch_adjust_points s "add" 100 [A, B, C] r false).2 =
      ⟨3, 2, 1, [(B, "not found")]⟩ ∧
    (batch_adjust_points s "add" 100 [A, B, C] r false).1.bal A =
      some (a + 100) ∧
    (batch_adjust_points s "add" 100 [A, B, C] r false).1.bal C =
      some (c + 100) ∧
    (batch_adjust_points s "add" 100 [A, B, C] r false).1.bal B = none := by
  have hAB : B ≠ A := by
    intro h
    rw [h, hA] at hB
    exact Option.noConfusion hB
  have hCB : B ≠ C := by
    intro h
    rw [h, hC] at hB
    exact Option.noConfusion hB
  have hok1 := adjust_ok s A 100 r false a hA
    (by simp only [Bool.not_false, Bool.true_and]; simpa using by omega)
  set s1 : St := { s with bal := setBal s.bal A (a + 100),
                          txns := s.txns ++ [⟨A, "adjust", 100, r⟩] } with hs1
  have hs1B : s1.bal B = none := by
    rw [hs1]
    simp only
    rw [setBal_other _ _ _ _ hAB]
    exact hB
  have hs1C : s1.bal C = some c := by
    rw [hs1]
    simp only
    rw [setBal_other _ _ _ _ (fun h => hAC h.symm)]
    exact hC
  have herr2 := adjust_err_none s1 B 100 r false hs1B
  have hok3 := adjust_ok s1 C 100 r false c hs1C
    (by simp only [Bool.not_false, Bool.true_and]; simpa using by omega)
  set s2 : St := { s1 with bal := setBal s1.bal C (c + 100),
                           txns := s1.txns ++ [⟨C, "adjust", 100, r⟩] } with hs2
  have hrun : batch_adjust_points s "add" 100 [A, B, C] r false =
      (s2, ⟨3, 2, 1, [(B, "not found")]⟩) := by
    simp [batch_adjust_points, hok1, herr2, hok3]
  rw [hrun]
  refine ⟨rfl, ?_, ?_, ?_⟩
  · simp [hs2, hs1, setBal, hAC]
  · simp [hs2, setBal]
  · simp [hs2, hs1, setBal, hCB, hAB, hB]

/-- Witness for C8 on a concrete state: A = 0 with balance 5, C = 2 with
balance 7, and id 1 absent. -/
theorem batch_add_isolates_failures_witness :
    stBatch.bal 0 = some 5 ∧ stBatch.bal 1 = none ∧ stBatch.bal 2 = some 7 ∧
    (0 : Nat) ≠ 2 ∧ (0 : Int) ≤ 5 ∧ (0 : Int) ≤ 7 ∧
    ((batch_adjust_points stBatch "add" 100 [0, 1, 2] "evt" false).2 =
        ⟨3, 2, 1, [(1, "not found")]⟩ ∧
      (batch_adjust_points stBatch "add" 100 [0, 1, 2] "evt" false).1.bal 0 =
        some (5 + 100) ∧
      (batch_adjust_points stBatch "add" 100 [0, 1, 2] "evt" false).1.bal 2 =
        some (7 + 100) ∧
      (batch_adjust_points stBatch "add" 100 [0, 1, 2] "evt" false).1.bal 1 =
        none) :=
  ⟨rfl, rfl, rfl, by decide, by decide, by decide,
    batch_add_isolates_failures stBatch 0 1 2 5 7 "evt" rfl rfl rfl
      (by decide) (by decide) (by decide)⟩

/-! ## Claim C10: redeem deducts and sets the cooldown up front; a later
queue failure refunds nothing -/

/-- Claim C10: a successful redeem (enabled, no active cooldown, sufficient
balance, positive cooldown, queued effect) deducts the cost and stores the
cooldown expiry at call time, while the enqueued effect is still `pending`;
and if the queue item later fails, the failure transition leaves the ledger
and the cooldown map — in particular the already-spent points — completely
unchanged. -/
theorem redeem_deducts_upfront_no_refund (now : Int) (app : AppSt)
    (uid : Nat) (rd : RedeemDef) (k payload : String) (b : Int)
    (hen : rd.enabled = true)
    (hcd : (is_active app.cds now uid ("redeem:" ++ rd.key)).1.1 = false)
    (hb : app.ledger.bal uid = some b) (hcost : rd.cost ≤ b)
    (hcs : 0 < rd.cooldown_s) :
    (redeem now app uid rd (some k) payload).1 = .ok (some app.nextQId) ∧
    (redeem now app uid rd (some k) payload).2.ledger.bal uid =
      some (b - rd.cost) ∧
    (redeem now app uid rd (some k) payload).2.cds.cooldowns
      (uid, "redeem:" ++ rd.key) = some (now + rd.cooldown_s) ∧
    (redeem now app uid rd (some k) payload).2.queue =
      app.queue ++ [⟨app.nextQId, k, .pending, payload⟩] ∧
    (∀ qid,
      (markFailed ((redeem now app uid rd (some k) payload).2) qid).ledger =
        (redeem now app uid rd (some k) payload).2.ledger ∧
      (markFailed ((redeem now app uid rd (some k) payload).2) qid).cds =
        (redeem now app uid rd (some k) payload).2.cds ∧
      (markFailed ((redeem now app uid rd (some k) payload).2) qid).ledger.bal
        uid = some (b - rd.cost)) := by
  have hsp := spend_ok app.ledger uid rd.cost ("redeem:" ++ rd.key) b hb hcost
  have hred : redeem now app uid rd (some k) payload =
      (.ok (some app.nextQId),
       { ledger := { app.ledger with
           bal := setBal app.ledger.bal uid (b - rd.cost),
           txns := app.ledger.txns ++
             [⟨uid, "spend", -rd.cost, "redeem:" ++ rd.key⟩] },
         cds := cdSet (is_active app.cds now uid ("redeem:" ++ rd.key)).2 now
           uid ("redeem:" ++ rd.key) rd.cooldown_s,
         queue := app.queue ++ [⟨app.nextQId, k, .pending, payload⟩],
         nextQId := app.nextQId + 1 }) := by
    unfold redeem
    rw [hen]
    rcases hia : is_active app.cds now uid ("redeem:" ++ rd.key) with
      ⟨⟨active, remaining⟩, cds1⟩
    rw [hia] at hcd
    simp only at hcd
    dsimp only
    rw [hia]
    simp [hcd, hsp, if_pos hcs]
  rw [hred]
  refine ⟨rfl, ?_, ?_, rfl, ?_⟩
  · exact setBal_same _ _ _
  · simp [cdSet]
  · intro qid
    exact ⟨rfl, rfl, setBal_same _ _ _⟩

/-- Witness for C10: user 0 with balance 50 redeems a 25-point effect with a
10-second cooldown at t = 1000. -/
theorem redeem_deducts_upfront_no_refund_witness :
    (⟨"tts", 25, true, 10⟩ : RedeemDef).enabled = true ∧
    (is_active appRedeem.cds 1000 0
      ("redeem:" ++ (⟨"tts", 25, true, 10⟩ : RedeemDef).key)).1.1 = false ∧
    appRedeem.ledger.bal 0 = some 50 ∧
    (⟨"tts", 25, true, 10⟩ : RedeemDef).cost ≤ 50 ∧
    (0 : Int) < (⟨"tts", 25, true, 10⟩ : RedeemDef).cooldown_s ∧
    ((redeem 1000 appRedeem 0 ⟨"tts", 25, true, 10⟩ (some "tts") "hi").1 =
        .ok (some appRedeem.nextQId) ∧
      (redeem 1000 appRedeem 0 ⟨"tts", 25, true, 10⟩ (some "tts")
        "hi").2.ledger.bal 0 = some (50 - 25) ∧
      (redeem 1000 appRedeem 0 ⟨"tts", 25, true, 10⟩ (some "tts")
        "hi").2.cds.cooldowns (0, "redeem:" ++ "tts") = some (1000 + 10) ∧
      (redeem 1000 appRedeem 0 ⟨"tts", 25, true, 10⟩ (some "tts")
        "hi").2.queue = appRedeem.queue ++
          [⟨appRedeem.nextQId, "tts", .pending, "hi"⟩] ∧
      ∀ qid,
        (markFailed ((redeem 1000 appRedeem 0 ⟨"tts", 25, true, 10⟩
          (some "tts") "hi").2) qid).ledger =
            (redeem 1000 appRedeem 0 ⟨"tts", 25, true, 10⟩ (some "tts")
              "hi").2.ledger ∧
        (markFailed ((redeem 1000 appRedeem 0 ⟨"tts", 25, true, 10⟩
          (some "tts") "hi").2) qid).cds =
            (redeem 1000 appRedeem 0 ⟨"tts", 25, true, 10⟩ (some "tts")
              "hi").2.cds ∧
        (markFailed ((redeem 1000 appRedeem 0 ⟨"tts", 25, true, 10⟩
          (some "tts") "hi").2) qid).ledger.bal 0 = some (50 - 25)) :=
  ⟨rfl, rfl, rfl, by decide, by decide,
    redeem_deducts_upfront_no_refund 1000 appRedeem 0 ⟨"tts", 25, true, 10⟩
      "tts" "hi" 50 rfl rfl rfl (by decide) (by decide)⟩

end Pixel
